import Mathlib

/-!
Verification development for the single-whip repository: a WHIP signaling
server that pairs two peers per room and relays Opus audio between them,
plus a client that converts between OGG Opus containers and RTP packet
streams.

The Go sources are shallowly embedded: pure functions become Lean
functions, stateful handlers become explicit state passing, Go machine
integers (uint16/uint32/uint64, byte) become `Nat` with explicit `% 2^w`
truncation at the points where the Go code truncates.  Byte strings are
`List Nat` whose elements are byte values.  Pointers (`*Peer`) are
modelled as opaque `Nat` identities, since the Go code compares them only
for identity.  Opaque room-identifier strings are likewise modelled as
`Nat` identities (the code only compares them for equality); the missing
`room` query parameter is `Option.none`.
-/

namespace SingleWhip

/-! ## Room & Peer registry (src/server/main.go)

`Room` holds two peer slots `PeerA`/`PeerB` (Go `*Peer`, nil when empty,
hence `Option Nat` here).  The `sync.Mutex` serialises the operations; the
embedding states each operation as the atomic state transformation it
performs under the lock. -/

structure Room where
  peerA : Option Nat
  peerB : Option Nat
  deriving DecidableEq, Repr

/-- The zero value of `Room` as allocated by `getOrCreateRoom`: both slots nil. -/
def emptyRoom : Room := { peerA := none, peerB := none }

/-- `Room.addPeer` (src/server/main.go:176-190): if `PeerA == nil` occupy it
and return nil; else if `PeerB == nil` occupy it and return `PeerA`; else
(room full) leave the room unchanged and return nil. -/
def Room.addPeer (r : Room) (peer : Nat) : Room × Option Nat :=
  match r.peerA with
  | none => ({ r with peerA := some peer }, none)
  | some a =>
    match r.peerB with
    | none => ({ r with peerB := some peer }, some a)
    | some _ => (r, none)

/-- `Room.removePeer` (src/server/main.go:193-204): clear `PeerA` if it is
this exact peer, else clear `PeerB` if it is this exact peer, else do
nothing. -/
def Room.removePeer (r : Room) (peer : Nat) : Room :=
  if r.peerA = some peer then { r with peerA := none }
  else if r.peerB = some peer then { r with peerB := none }
  else r

/-- Number of occupied slots of a room. -/
def Room.peerCount (r : Room) : Nat :=
  (if r.peerA.isSome then 1 else 0) + (if r.peerB.isSome then 1 else 0)

/-- The `RoomManager.rooms` map (identifier → `*Room`), as an association
list keyed by the opaque room identifier. -/
abbrev Registry := List (Nat × Room)

/-- Map lookup `rm.rooms[roomID]`. -/
def lookupRoom (rm : Registry) (id : Nat) : Option Room :=
  match rm with
  | [] => none
  | (k, v) :: rest => if k = id then some v else lookupRoom rest id

/-- Map store `rm.rooms[roomID] = room` (overwrites, or appends a new key). -/
def setRoom (rm : Registry) (id : Nat) (r : Room) : Registry :=
  match rm with
  | [] => [(id, r)]
  | (k, v) :: rest => if k = id then (id, r) :: rest else (k, v) :: setRoom rest id r

/-- `RoomManager.getOrCreateRoom` (src/server/main.go:160-173): returns the
existing room, or stores and returns a fresh zero-valued room. -/
def getOrCreateRoom (rm : Registry) (id : Nat) : Registry × Room :=
  match lookupRoom rm id with
  | some r => (rm, r)
  | none => (setRoom rm id emptyRoom, emptyRoom)

/-! ## WHIP signaling handler (src/server/main.go:54-157, 250-286)

The handler performs a sequence of fallible external calls (codec
registration, peer-connection construction, track creation/attachment,
then — inside `writeAnswer` — SetRemoteDescription, CreateAnswer,
SetLocalDescription).  The embedding makes the outcome of each external
call an input (`WhipEnv`) and returns the registry after the request
together with the HTTP status code written. -/

structure WhipEnv where
  registerCodecOk : Bool
  newPeerConnectionOk : Bool
  newTrackOk : Bool
  addTrackOk : Bool
  setRemoteDescriptionOk : Bool
  createAnswerOk : Bool
  setLocalDescriptionOk : Bool
  deriving DecidableEq, Repr

structure WhipRequest where
  /-- `req.Method == http.MethodOptions` -/
  isOptions : Bool
  /-- `req.URL.Query().Get(room)`; `none` models the empty/missing parameter. -/
  room : Option Nat
  deriving DecidableEq, Repr

/-- Registry state after the handler's registration block: `getOrCreateRoom`
followed by `room.addPeer(peer)` (the room is mutated through its pointer,
so the stored room is the updated one). -/
def registryAfterRegistration (rm : Registry) (id : Nat) (peer : Nat) : Registry :=
  let res := getOrCreateRoom rm id
  setRoom res.1 id (res.2.addPeer peer).1

/-- `whipHandler` (src/server/main.go:54-157): CORS headers, OPTIONS early
return (status 200), 400 on missing room, 500 on any failed setup step,
then `getOrCreateRoom`/`addPeer`, then `writeAnswer`
(src/server/main.go:250-286) which performs the negotiation steps and
writes 500 on failure or 201 with the answer on success.  Result: final
registry and HTTP status. -/
def whipHandler (env : WhipEnv) (req : WhipRequest) (rm : Registry) (peer : Nat) :
    Registry × Nat :=
  if req.isOptions then (rm, 200)
  else
    match req.room with
    | none => (rm, 400)
    | some id =>
      if env.registerCodecOk = false then (rm, 500)
      else if env.newPeerConnectionOk = false then (rm, 500)
      else if env.newTrackOk = false then (rm, 500)
      else if env.addTrackOk = false then (rm, 500)
      else
        let rm2 := registryAfterRegistration rm id peer
        if env.setRemoteDescriptionOk = false then (rm2, 500)
        else if env.createAnswerOk = false then (rm2, 500)
        else if env.setLocalDescriptionOk = false then (rm2, 500)
        else (rm2, 201)

/-! ## Relay engine (src/server/main.go:207-248)

`connectPeers` installs an OnTrack handler whose forwarding goroutine
loops: `ReadRTP`; on any error return; clear `pkt.Header.Extensions` and
`pkt.Header.Extension`; if the track kind is audio, `WriteRTP` the packet
to the destination's audio track.  The embedding runs that loop over an
explicit list of read outcomes and collects the packets written. -/

structure RTPHeader where
  version : Nat
  padding : Bool
  extensionFlag : Bool
  extensions : List (Nat × List Nat)
  marker : Bool
  payloadType : Nat
  sequenceNumber : Nat
  timestamp : Nat
  ssrc : Nat
  deriving DecidableEq, Repr

structure RTPPacket where
  header : RTPHeader
  payload : List Nat
  deriving DecidableEq, Repr

/-- One outcome of `track.ReadRTP()`: a packet, normal end of stream, or a
read error. -/
inductive ReadEvent where
  | packet (p : RTPPacket)
  | eofEnd
  | readErr
  deriving DecidableEq, Repr

/-- `pkt.Header.Extensions = nil; pkt.Header.Extension = false` -/
def stripExtensions (p : RTPPacket) : RTPPacket :=
  { p with header := { p.header with extensions := [], extensionFlag := false } }

/-- The forwarding loop body of `connectPeers` (src/server/main.go:224-246):
`isAudio` is the fixed value of `track.Kind() == webrtc.RTPCodecTypeAudio`;
returns the packets written to `destination.AudioTrack` in order. -/
def relayLoop (isAudio : Bool) : List ReadEvent → List RTPPacket
  | [] => []
  | .eofEnd :: _ => []
  | .readErr :: _ => []
  | .packet p :: rest =>
    if isAudio then stripExtensions p :: relayLoop isAudio rest
    else relayLoop isAudio rest

/-! ## RTP packetizer (src/client/main.go:723-762)

`sendAudioToTrack` sends one RTP packet per extracted Opus packet:
sequence number starts at 0 and is a Go `uint16` incremented per frame,
timestamp a `uint32` advanced by 960 samples per frame, `Marker` set
exactly on the last index, payload type 97, SSRC 0. -/

structure SentPacket where
  version : Nat
  marker : Bool
  payloadType : Nat
  sequenceNumber : Nat
  timestamp : Nat
  ssrc : Nat
  payload : List Nat
  deriving DecidableEq, Repr

/-- The send loop with its mutable state: current original index `i`, the
batch size `total`, and the running `uint16` sequence number and `uint32`
timestamp. -/
def sendLoop : List (List Nat) → Nat → Nat → Nat → Nat → List SentPacket
  | [], _, _, _, _ => []
  | p :: rest, i, total, seq, ts =>
    { version := 2, marker := i = total - 1, payloadType := 97,
      sequenceNumber := seq, timestamp := ts, ssrc := 0, payload := p }
      :: sendLoop rest (i + 1) total ((seq + 1) % 2 ^ 16) ((ts + 960) % 2 ^ 32)

/-- `sendAudioToTrack` applied to an already-extracted batch of Opus
packets (the extraction itself is `extractOpusPacketsFromOgg`). -/
def sendAudioToTrack (opusPackets : List (List Nat)) : List SentPacket :=
  sendLoop opusPackets 0 opusPackets.length 0 0

/-! ## OGG Opus container encoder (src/client/main.go:1286-1432)

Bytes are `Nat` values; multi-byte fields are little-endian as written by
`binary.Write(..., binary.LittleEndian, ...)`. -/

/-- Little-endian encoding of the low `k` bytes of `n` (Go writes the
value of a `uintN` variable, i.e. `n` already reduced mod `2^N`; byte
extraction below only depends on `n % 2^(8*k)`). -/
def leBytes : Nat → Nat → List Nat
  | 0, _ => []
  | k + 1, n => n % 256 :: leBytes k (n / 256)

/-- Little-endian decoding, `binary.LittleEndian.UintN`. -/
def leDecode (bs : List Nat) : Nat :=
  match bs with
  | [] => 0
  | b :: rest => b % 256 + 256 * leDecode rest

def crc32Table : List Nat := [
  0x00000000, 0x04c11db7, 0x09823b6e, 0x0d4326d9, 0x130476dc, 0x17c56b6b, 0x1a864db2, 0x1e475005,
  0x2608edb8, 0x22c9f00f, 0x2f8ad6d6, 0x2b4bcb61, 0x350c9b64, 0x31cd86d3, 0x3c8ea00a, 0x384fbdbd,
  0x4c11db70, 0x48d0c6c7, 0x4593e01e, 0x4152fda9, 0x5f15adac, 0x5bd4b01b, 0x569796c2, 0x52568b75,
  0x6a1936c8, 0x6ed82b7f, 0x639b0da6, 0x675a1011, 0x791d4014, 0x7ddc5da3, 0x709f7b7a, 0x745e66cd,
  0x9823b6e0, 0x9ce2ab57, 0x91a18d8e, 0x95609039, 0x8b27c03c, 0x8fe6dd8b, 0x82a5fb52, 0x8664e6e5,
  0xbe2b5b58, 0xbaea46ef, 0xb7a96036, 0xb3687d81, 0xad2f2d84, 0xa9ee3033, 0xa4ad16ea, 0xa06c0b5d,
  0xd4326d90, 0xd0f37027, 0xddb056fe, 0xd9714b49, 0xc7361b4c, 0xc3f706fb, 0xceb42022, 0xca753d95,
  0xf23a8028, 0xf6fb9d9f, 0xfbb8bb46, 0xff79a6f1, 0xe13ef6f4, 0xe5ffeb43, 0xe8bccd9a, 0xec7dd02d,
  0x34867077, 0x30476dc0, 0x3d044b19, 0x39c556ae, 0x278206ab, 0x23431b1c, 0x2e003dc5, 0x2ac12072,
  0x128e9dcf, 0x164f8078, 0x1b0ca6a1, 0x1fcdbb16, 0x018aeb13, 0x054bf6a4, 0x0808d07d, 0x0cc9cdca,
  0x7897ab07, 0x7c56b6b0, 0x71159069, 0x75d48dde, 0x6b93dddb, 0x6f52c06c, 0x6211e6b5, 0x66d0fb02,
  0x5e9f46bf, 0x5a5e5b08, 0x571d7dd1, 0x53dc6066, 0x4d9b3063, 0x495a2dd4, 0x44190b0d, 0x40d816ba,
  0xaca5c697, 0xa864db20, 0xa527fdf9, 0xa1e6e04e, 0xbfa1b04b, 0xbb60adfc, 0xb6238b25, 0xb2e29692,
  0x8aad2b2f, 0x8e6c3698, 0x832f1041, 0x87ee0df6, 0x99a95df3, 0x9d684044, 0x902b669d, 0x94ea7b2a,
  0xe0b41de7, 0xe4750050, 0xe9362689, 0xedf73b3e, 0xf3b06b3b, 0xf771768c, 0xfa325055, 0xfef34de2,
  0xc6bcf05f, 0xc27dede8, 0xcf3ecb31, 0xcbffd686, 0xd5b88683, 0xd1799b34, 0xdc3abded, 0xd8fba05a,
  0x690ce0ee, 0x6dcdfd59, 0x608edb80, 0x644fc637, 0x7a089632, 0x7ec98b85, 0x738aad5c, 0x774bb0eb,
  0x4f040d56, 0x4bc510e1, 0x46863638, 0x42472b8f, 0x5c007b8a, 0x58c1663d, 0x558240e4, 0x51435d53,
  0x251d3b9e, 0x21dc2629, 0x2c9f00f0, 0x285e1d47, 0x36194d42, 0x32d850f5, 0x3f9b762c, 0x3b5a6b9b,
  0x0315d626, 0x07d4cb91, 0x0a97ed48, 0x0e56f0ff, 0x1011a0fa, 0x14d0bd4d, 0x19939b94, 0x1d528623,
  0xf12f560e, 0xf5ee4bb9, 0xf8ad6d60, 0xfc6c70d7, 0xe22b20d2, 0xe6ea3d65, 0xeba91bbc, 0xef68060b,
  0xd727bbb6, 0xd3e6a601, 0xdea580d8, 0xda649d6f, 0xc423cd6a, 0xc0e2d0dd, 0xcda1f604, 0xc960ebb3,
  0xbd3e8d7e, 0xb9ff90c9, 0xb4bcb610, 0xb07daba7, 0xae3afba2, 0xaafbe615, 0xa7b8c0cc, 0xa379dd7b,
  0x9b3660c6, 0x9ff77d71, 0x92b45ba8, 0x9675461f, 0x8832161a, 0x8cf30bad, 0x81b02d74, 0x857130c3,
  0x5d8a9099, 0x594b8d2e, 0x5408abf7, 0x50c9b640, 0x4e8ee645, 0x4a4ffbf2, 0x470cdd2b, 0x43cdc09c,
  0x7b827d21, 0x7f436096, 0x7200464f, 0x76c15bf8, 0x68860bfd, 0x6c47164a, 0x61043093, 0x65c52d24,
  0x119b4be9, 0x155a565e, 0x18197087, 0x1cd86d30, 0x029f3d35, 0x065e2082, 0x0b1d065b, 0x0fdc1bec,
  0x3793a651, 0x3352bbe6, 0x3e119d3f, 0x3ad08088, 0x2497d08d, 0x2056cd3a, 0x2d15ebe3, 0x29d4f654,
  0xc5a92679, 0xc1683bce, 0xcc2b1d17, 0xc8ea00a0, 0xd6ad50a5, 0xd26c4d12, 0xdf2f6bcb, 0xdbee767c,
  0xe3a1cbc1, 0xe760d676, 0xea23f0af, 0xeee2ed18, 0xf0a5bd1d, 0xf464a0aa, 0xf9278673, 0xfde69bc4,
  0x89b8fd09, 0x8d79e0be, 0x803ac667, 0x84fbdbd0, 0x9abc8bd5, 0x9e7d9662, 0x933eb0bb, 0x97ffad0c,
  0xafb010b1, 0xab710d06, 0xa6322bdf, 0xa2f33668, 0xbcb4666d, 0xb8757bda, 0xb5365d03, 0xb1f740b4]

/-- `crc32Ogg` (src/client/main.go:1359-1365): `crc` is a Go `uint32`;
`crc = (crc << 8) ^ crc32Table[byte(crc>>24)^b]`.  The shift truncates to
32 bits (`(crc % 2^24) * 256`), the table index is the top byte of `crc`
xored with the data byte (`b % 256` encodes that `b` has Go type `byte`).
-/
def crc32Ogg (data : List Nat) : Nat :=
  data.foldl (fun crc b => ((crc % 2 ^ 24) * 256) ^^^ (crc32Table.getD ((crc / 2 ^ 24) ^^^ b % 256) 0)) 0

/-- One round of the standard CRC-32 polynomial-division step for the OGG
page-integrity polynomial 0x04c11db7 on a 32-bit register. -/
def crcPolyStep (r : Nat) : Nat :=
  if r / 2 ^ 31 % 2 = 1 then ((r * 2) % 2 ^ 32) ^^^ 0x04c11db7 else (r * 2) % 2 ^ 32

/-- The lookup table generated from polynomial 0x04c11db7 (as the pion
`oggreader`/`oggwriter` `generateChecksumTable` does: eight register steps
starting from `i << 24`). -/
def crcTableOfPoly : List Nat :=
  (List.range 256).map (fun i => crcPolyStep^[8] (i * 2 ^ 24))

/-- The page header bytes written by `writeOggPage`
(src/client/main.go:1296-1315) up to but not including the checksum
field: capture pattern, version 0, header type, 64-bit granule position,
32-bit serial number, 32-bit page sequence number.  `% 256` encodes that
the header-type argument has Go type `byte`. -/
def pageHeadBytes (headerType granule serial pageSeq : Nat) : List Nat :=
  79 :: 103 :: 103 :: 83 :: 0 :: headerType % 256 ::
    (leBytes 8 granule ++ leBytes 4 serial ++ leBytes 4 pageSeq)

/-- The full page as first written by `writeOggPage`, with the four
checksum bytes still the zero placeholder: header, one-entry segment
table (`byte(len(data))`), then the data. -/
def pageZero (data : List Nat) (headerType granule serial pageSeq : Nat) : List Nat :=
  pageHeadBytes headerType granule serial pageSeq ++ [0, 0, 0, 0] ++ [1, data.length % 256] ++ data

/-- `writeOggPage` (src/client/main.go:1296-1315): write the page with a
zero checksum placeholder, compute `crc32Ogg` over the entire page bytes,
and patch the checksum field (bytes 22-25) with its little-endian value.
-/
def writeOggPage (data : List Nat) (headerType granule serial pageSeq : Nat) : List Nat :=
  pageHeadBytes headerType granule serial pageSeq ++
    leBytes 4 (crc32Ogg (pageZero data headerType granule serial pageSeq)) ++
    [1, data.length % 256] ++ data

/-- The 19-byte OpusHead identification payload built at
src/client/main.go:1317-1325: magic, version 1, 2 channels, pre-skip 0,
sample rate 48000, output gain 0, channel mapping family 0. -/
def opusHeadPayload : List Nat :=
  [79, 112, 117, 115, 72, 101, 97, 100] ++ [1, 2] ++ leBytes 2 0 ++
    leBytes 4 48000 ++ leBytes 2 0 ++ [0]

/-- The OpusTags comment payload built at src/client/main.go:1329-1335:
magic, vendor-string length 16, the 16 vendor bytes, zero user comments.
-/
def opusTagsPayload : List Nat :=
  [79, 112, 117, 115, 84, 97, 103, 115] ++ leBytes 4 16 ++
    [71, 111, 32, 87, 101, 98, 82, 84, 67, 32, 67, 108, 105, 101, 110, 116] ++ leBytes 4 0

/-- Go `len(packet) == 0 || len(packet) > 255` is false: the frame is kept
and becomes one audio page. -/
def keepFrame (p : List Nat) : Bool :=
  !(p.length = 0 || 255 < p.length)

/-- The audio-page loop of `createOggOpusFile`
(src/client/main.go:1340-1353): `i` is the original frame index, `total`
the original batch length, `granule` the running `uint64` granule
position, `pageSeq` the next page sequence number.  Empty or over-255-byte
frames are skipped without emitting a page or advancing the granule/page
counters; otherwise the granule advances by 960 and the page's header
type is 0x04 (end of stream) exactly when `i` is the last original
index. -/
def oggAudioPages (serial : Nat) : List (List Nat) → Nat → Nat → Nat → Nat → List (List Nat)
  | [], _, _, _, _ => []
  | p :: rest, i, total, granule, pageSeq =>
    if keepFrame p = false then oggAudioPages serial rest (i + 1) total granule pageSeq
    else
      let granuleNext := (granule + 960) % 2 ^ 64
      let ht : Nat := if i = total - 1 then 4 else 0
      writeOggPage p ht granuleNext serial pageSeq ::
        oggAudioPages serial rest (i + 1) total granuleNext (pageSeq + 1)

/-- The pages of `createOggOpusFile` (src/client/main.go:1286-1356) in
order: the OpusHead page (header type 0x02, granule 0, page sequence 0),
the OpusTags page (header type 0, granule 0, page sequence 1), then one
page per kept frame.  `serial` is the stream serial number the Go code
takes from the clock (`uint32(time.Now().Unix())`). -/
def createOggPages (serial : Nat) (opusPackets : List (List Nat)) : List (List Nat) :=
  writeOggPage opusHeadPayload 2 0 serial 0 ::
    writeOggPage opusTagsPayload 0 0 serial 1 ::
    oggAudioPages serial opusPackets 0 opusPackets.length 0 2

/-- `createOggOpusFile`: the byte buffer is the concatenation of the pages
written in order. -/
def createOggOpusFile (serial : Nat) (opusPackets : List (List Nat)) : List Nat :=
  (createOggPages serial opusPackets).flatten

/-! ## OGG container decoder (src/client/main.go:699-721)

`extractOpusPacketsFromOgg` delegates page parsing to the pion
`oggreader` package (`oggreader.NewWith` + `ParseNextPage`), a third-party
dependency whose behaviour the functions below embed byte-for-byte:

* `ParseNextPage`: read the fixed 27-byte page header (EOF with an empty
  stream, error on a truncated one), read `h[26]` segment-table bytes,
  read their sum as the payload, verify the page checksum — computed over
  the header with the four checksum bytes `h[22..25]` replaced by zeros,
  then the segment table, then the payload, against the stored
  little-endian checksum field — and return the payload, the parsed
  header fields, and the unconsumed remainder.
* `NewWith` (`readHeaders`): parse one page and validate it as the ID
  header — capture pattern, header type exactly 0x02, 19-byte payload
  beginning with the OpusHead magic.  Only this first page is consumed;
  the comment-header page is not.
-/

inductive OggErr where
  | eofErr
  | shortPageHeader
  | shortSegTable
  | shortPayload
  | checksumMismatch
  | badIDPageSignature
  | badIDPageType
  | badIDPageLength
  | badIDPagePayloadSignature
  deriving DecidableEq, Repr

structure OggPageInfo where
  sig : List Nat
  headerType : Nat
  granulePosition : Nat
  serial : Nat
  index : Nat
  deriving DecidableEq, Repr

/-- The pion reader's checksum loop: identical recurrence to `crc32Ogg`,
with the table generated from the polynomial (`generateChecksumTable`). -/
def crc32OggLib (data : List Nat) : Nat :=
  data.foldl (fun crc b => ((crc % 2 ^ 24) * 256) ^^^ (crcTableOfPoly.getD ((crc / 2 ^ 24) ^^^ b % 256) 0)) 0

/-- pion `OggReader.ParseNextPage`. -/
def parseNextPage (s : List Nat) : Except OggErr (List Nat × OggPageInfo × List Nat) :=
  if s.length = 0 then .error .eofErr
  else if s.length < 27 then .error .shortPageHeader
  else
    let h := s.take 27
    let afterH := s.drop 27
    let segCount := h.getD 26 0
    if afterH.length < segCount then .error .shortSegTable
    else
      let segTable := afterH.take segCount
      let payloadSize := segTable.foldl (· + ·) 0
      let afterSeg := afterH.drop segCount
      if afterSeg.length < payloadSize then .error .shortPayload
      else
        let payload := afterSeg.take payloadSize
        let crcInput := h.take 22 ++ [0, 0, 0, 0] ++ h.drop 26 ++ segTable ++ payload
        if leDecode ((h.drop 22).take 4) ≠ crc32OggLib crcInput then .error .checksumMismatch
        else
          .ok (payload,
            { sig := h.take 4, headerType := h.getD 5 0,
              granulePosition := leDecode ((h.drop 6).take 8),
              serial := leDecode ((h.drop 14).take 4),
              index := leDecode ((h.drop 18).take 4) },
            afterSeg.drop payloadSize)

/-- pion `newWith`/`readHeaders`: parse and validate the ID page, return
its payload and the unconsumed remainder of the stream. -/
def readHeaders (s : List Nat) : Except OggErr (List Nat × List Nat) :=
  match parseNextPage s with
  | .error e => .error e
  | .ok (payload, info, rest) =>
    if info.sig ≠ [79, 103, 103, 83] then .error .badIDPageSignature
    else if info.headerType ≠ 2 then .error .badIDPageType
    else if payload.length ≠ 19 then .error .badIDPageLength
    else if payload.take 8 ≠ [79, 112, 117, 115, 72, 101, 97, 100] then
      .error .badIDPagePayloadSignature
    else .ok (payload, rest)

/-- A successful page parse consumes at least the 27 header bytes. -/
theorem parseNextPage_rest_lt {s payload : List Nat} {info : OggPageInfo} {rest : List Nat}
    (h : parseNextPage s = .ok (payload, info, rest)) : rest.length < s.length := by
  simp only [parseNextPage] at h
  split at h
  · exact absurd h (by simp)
  · split at h
    · exact absurd h (by simp)
    · split at h
      · exact absurd h (by simp)
      · split at h
        · exact absurd h (by simp)
        · split at h
          · exact absurd h (by simp)
          · simp only [Except.ok.injEq, Prod.mk.injEq] at h
            obtain ⟨-, -, hrest⟩ := h
            subst hrest
            simp only [List.length_drop]
            omega

/-- The page-payload loop of `extractOpusPacketsFromOgg`
(src/client/main.go:705-718): parse pages until `io.EOF`, collecting a
copy of every page payload in order; any other parse error fails the
whole extraction. -/
def extractLoop (s : List Nat) : Except OggErr (List (List Nat)) :=
  match hp : parseNextPage s with
  | .error e => if e = .eofErr then .ok [] else .error e
  | .ok (payload, _, rest) =>
    match extractLoop rest with
    | .error e => .error e
    | .ok ps => .ok (payload :: ps)
termination_by s.length
decreasing_by exact parseNextPage_rest_lt hp

/-- `extractOpusPacketsFromOgg` (src/client/main.go:699-721):
`oggreader.NewWith` (consuming and validating the ID page) followed by
the page-payload loop. -/
def extractOpusPacketsFromOgg (oggData : List Nat) : Except OggErr (List (List Nat)) :=
  match readHeaders oggData with
  | .error e => .error e
  | .ok (_, rest) => extractLoop rest

/-- Observer used to state properties of a container's page headers: the
parsed header of every page of the stream, in file order (same parse as
`parseNextPage`, collecting headers instead of payloads). -/
def parsePageInfos (s : List Nat) : Except OggErr (List OggPageInfo) :=
  match hp : parseNextPage s with
  | .error e => if e = .eofErr then .ok [] else .error e
  | .ok (_, info, rest) =>
    match parsePageInfos rest with
    | .error e => .error e
    | .ok infos => .ok (info :: infos)
termination_by s.length
decreasing_by exact parseNextPage_rest_lt hp

/-! ## Supporting lemmas -/

theorem leBytes_length (k n : Nat) : (leBytes k n).length = k := by
  induction k generalizing n with
  | zero => rfl
  | succ k ih => simp [leBytes, ih]

theorem leDecode_leBytes (k n : Nat) : leDecode (leBytes k n) = n % 256 ^ k := by
  induction k generalizing n with
  | zero => simp [leBytes, leDecode, Nat.mod_one]
  | succ k ih =>
    simp only [leBytes, leDecode, ih, Nat.mod_mod]
    rw [pow_succ', Nat.mod_mul]

theorem pageHeadBytes_length (ht g sr sq : Nat) : (pageHeadBytes ht g sr sq).length = 22 := by
  simp [pageHeadBytes, leBytes_length]

set_option maxRecDepth 4000 in
theorem crc32Table_entries_lt : ∀ x ∈ crc32Table, x < 2 ^ 32 := by decide

theorem getD_lt_of_forall {b d : Nat} (hd : d < b) :
    ∀ (l : List Nat), (∀ x ∈ l, x < b) → ∀ i, l.getD i d < b
  | [], _, _ => by simpa [List.getD]
  | x :: xs, h, 0 => by simpa using h x (by simp)
  | x :: xs, h, i + 1 => by
    simpa [List.getD_cons_succ] using
      getD_lt_of_forall hd xs (fun y hy => h y (by simp [hy])) i

theorem crc32_foldl_lt (data : List Nat) :
    ∀ crc, crc < 2 ^ 32 →
      data.foldl (fun crc b =>
        ((crc % 2 ^ 24) * 256) ^^^ (crc32Table.getD ((crc / 2 ^ 24) ^^^ b % 256) 0)) crc
        < 2 ^ 32 := by
  induction data with
  | nil => intro crc h; simpa using h
  | cons b rest ih =>
    intro crc h
    simp only [List.foldl_cons]
    apply ih
    apply Nat.xor_lt_two_pow
    · have hm : crc % 2 ^ 24 < 2 ^ 24 := Nat.mod_lt _ (by norm_num)
      have : (crc % 2 ^ 24) * 256 < 2 ^ 24 * 256 := by omega
      omega
    · exact getD_lt_of_forall (by norm_num) crc32Table crc32Table_entries_lt _

theorem crc32Ogg_lt (data : List Nat) : crc32Ogg data < 2 ^ 32 :=
  crc32_foldl_lt data 0 (by norm_num)

set_option maxRecDepth 40000 in
/-- The literal table in the Go source is the table generated from the
OGG page-integrity polynomial 0x04c11db7. -/
theorem crcTableOfPoly_eq : crcTableOfPoly = crc32Table := by decide

theorem crc32OggLib_eq (data : List Nat) : crc32OggLib data = crc32Ogg data := by
  unfold crc32OggLib crc32Ogg
  rw [crcTableOfPoly_eq]

theorem parseNextPage_aux (hdr22 : List Nat) (c : Nat) (data rest : List Nat)
    (hhdr : hdr22.length = 22) (hclt : c < 2 ^ 32) (hdl : data.length ≤ 255)
    (hcrc : c = crc32Ogg (hdr22 ++ [0, 0, 0, 0] ++ [1, data.length % 256] ++ data)) :
    parseNextPage (hdr22 ++ (leBytes 4 c ++ (1 :: data.length % 256 :: (data ++ rest)))) =
      .ok (data,
        { sig := hdr22.take 4, headerType := hdr22.getD 5 0,
          granulePosition := leDecode ((hdr22.drop 6).take 8),
          serial := leDecode ((hdr22.drop 14).take 4),
          index := leDecode ((hdr22.drop 18).take 4) },
        rest) := by
  have hL : data.length % 256 = data.length := Nat.mod_eq_of_lt (by omega)
  rw [hL] at hcrc ⊢
  have hgroup : hdr22 ++ (leBytes 4 c ++ (1 :: data.length :: (data ++ rest)))
      = (hdr22 ++ (leBytes 4 c ++ [1])) ++ (data.length :: (data ++ rest)) := by
    simp [List.append_assoc]
  rw [hgroup]
  have hXlen : (hdr22 ++ (leBytes 4 c ++ [1])).length = 27 := by
    simp [hhdr, leBytes_length]
  have htake27 : ((hdr22 ++ (leBytes 4 c ++ [1])) ++ (data.length :: (data ++ rest))).take 27
      = hdr22 ++ (leBytes 4 c ++ [1]) := List.take_left' hXlen
  have hdrop27 : ((hdr22 ++ (leBytes 4 c ++ [1])) ++ (data.length :: (data ++ rest))).drop 27
      = data.length :: (data ++ rest) := List.drop_left' hXlen
  have hX26 : (hdr22 ++ (leBytes 4 c ++ [1])).getD 26 0 = 1 := by
    rw [List.getD_append_right _ _ _ _ (by simp [hhdr]), hhdr]
    rw [List.getD_append_right _ _ _ _ (by simp [leBytes_length]), leBytes_length]
    rfl
  have hXtake22 : (hdr22 ++ (leBytes 4 c ++ [1])).take 22 = hdr22 := List.take_left' hhdr
  have hXdrop22 : (hdr22 ++ (leBytes 4 c ++ [1])).drop 22 = leBytes 4 c ++ [1] :=
    List.drop_left' hhdr
  have hXdrop26 : (hdr22 ++ (leBytes 4 c ++ [1])).drop 26 = [1] := by
    rw [← List.append_assoc]
    exact List.drop_left' (by simp [hhdr, leBytes_length])
  have hXtake4 : (hdr22 ++ (leBytes 4 c ++ [1])).take 4 = hdr22.take 4 :=
    List.take_append_of_le_length (by simp [hhdr])
  have hXgetD5 : (hdr22 ++ (leBytes 4 c ++ [1])).getD 5 0 = hdr22.getD 5 0 :=
    List.getD_append _ _ _ _ (by simp [hhdr])
  have hXd6 : ((hdr22 ++ (leBytes 4 c ++ [1])).drop 6).take 8 = (hdr22.drop 6).take 8 := by
    rw [List.drop_append_of_le_length (by simp [hhdr])]
    exact List.take_append_of_le_length (by simp [hhdr])
  have hXd14 : ((hdr22 ++ (leBytes 4 c ++ [1])).drop 14).take 4 = (hdr22.drop 14).take 4 := by
    rw [List.drop_append_of_le_length (by simp [hhdr])]
    exact List.take_append_of_le_length (by simp [hhdr])
  have hXd18 : ((hdr22 ++ (leBytes 4 c ++ [1])).drop 18).take 4 = (hdr22.drop 18).take 4 := by
    rw [List.drop_append_of_le_length (by simp [hhdr])]
    exact List.take_append_of_le_length (by simp [hhdr])
  have hchk : leDecode (((hdr22 ++ (leBytes 4 c ++ [1])).drop 22).take 4) = c := by
    rw [hXdrop22, List.take_left' (leBytes_length 4 c), leDecode_leBytes]
    rw [show (256 : Nat) ^ 4 = 2 ^ 32 by norm_num]
    exact Nat.mod_eq_of_lt hclt
  simp only [parseNextPage]
  rw [if_neg (by simp [List.length_append, hhdr, leBytes_length] <;> omega)]
  rw [if_neg (by simp [List.length_append, hhdr, leBytes_length] <;> omega)]
  rw [htake27, hdrop27, hX26]
  rw [if_neg (by simp)]
  simp only [List.take_succ_cons, List.take_zero, List.drop_succ_cons, List.drop_zero,
    List.foldl_cons, List.foldl_nil, Nat.zero_add]
  rw [if_neg (by simp [List.length_append])]
  rw [List.take_left, List.drop_left]
  rw [hXtake22, hXdrop26]
  have hinp : hdr22 ++ [0, 0, 0, 0] ++ [1] ++ [data.length] ++ data
      = hdr22 ++ [0, 0, 0, 0] ++ [1, data.length] ++ data := by
    simp
  rw [if_neg (by rw [hchk, crc32OggLib_eq, hinp, ← hcrc]; simp)]
  rw [hXtake4, hXgetD5, hXd6, hXd14, hXd18]

/-- Parsing a stream that begins with one encoder-written page (data at
most 255 bytes, as the encoder guarantees) succeeds, returning that
page's data, its header fields, and the untouched remainder of the
stream. -/
theorem parseNextPage_writeOggPage (data : List Nat) (ht g sr sq : Nat) (rest : List Nat)
    (hdl : data.length ≤ 255) :
    parseNextPage (writeOggPage data ht g sr sq ++ rest) =
      .ok (data,
        { sig := [79, 103, 103, 83], headerType := ht % 256,
          granulePosition := g % 2 ^ 64, serial := sr % 2 ^ 32, index := sq % 2 ^ 32 },
        rest) := by
  have h1 : writeOggPage data ht g sr sq ++ rest
      = pageHeadBytes ht g sr sq ++
          (leBytes 4 (crc32Ogg (pageZero data ht g sr sq)) ++
            (1 :: data.length % 256 :: (data ++ rest))) := by
    simp [writeOggPage, List.append_assoc]
  rw [h1, parseNextPage_aux _ _ _ _ (pageHeadBytes_length ht g sr sq) (crc32Ogg_lt _) hdl
    (by simp [pageZero, List.append_assoc])]
  have e1 : (pageHeadBytes ht g sr sq).take 4 = [79, 103, 103, 83] := by
    simp [pageHeadBytes]
  have e2 : (pageHeadBytes ht g sr sq).getD 5 0 = ht % 256 := by
    simp [pageHeadBytes]
  have e3 : ((pageHeadBytes ht g sr sq).drop 6).take 8 = leBytes 8 g := by
    have hd : (pageHeadBytes ht g sr sq).drop 6
        = leBytes 8 g ++ leBytes 4 sr ++ leBytes 4 sq := by
      simp [pageHeadBytes]
    rw [hd, List.append_assoc]
    exact List.take_left' (leBytes_length 8 g)
  have e4 : ((pageHeadBytes ht g sr sq).drop 14).take 4 = leBytes 4 sr := by
    have hd : (pageHeadBytes ht g sr sq).drop 14 = leBytes 4 sr ++ leBytes 4 sq := by
      have h6 : (pageHeadBytes ht g sr sq).drop 6
          = leBytes 8 g ++ leBytes 4 sr ++ leBytes 4 sq := by
        simp [pageHeadBytes]
      have : (pageHeadBytes ht g sr sq).drop 14
          = ((pageHeadBytes ht g sr sq).drop 6).drop 8 := by
        rw [List.drop_drop]
      rw [this, h6, List.append_assoc]
      exact List.drop_left' (leBytes_length 8 g)
    rw [hd]
    exact List.take_left' (leBytes_length 4 sr)
  have e5 : ((pageHeadBytes ht g sr sq).drop 18).take 4 = leBytes 4 sq := by
    have hd : (pageHeadBytes ht g sr sq).drop 18 = leBytes 4 sq := by
      have h14 : (pageHeadBytes ht g sr sq).drop 14 = leBytes 4 sr ++ leBytes 4 sq := by
        have h6 : (pageHeadBytes ht g sr sq).drop 6
            = leBytes 8 g ++ leBytes 4 sr ++ leBytes 4 sq := by
          simp [pageHeadBytes]
        have : (pageHeadBytes ht g sr sq).drop 14
            = ((pageHeadBytes ht g sr sq).drop 6).drop 8 := by
          rw [List.drop_drop]
        rw [this, h6, List.append_assoc]
        exact List.drop_left' (leBytes_length 8 g)
      have : (pageHeadBytes ht g sr sq).drop 18
          = ((pageHeadBytes ht g sr sq).drop 14).drop 4 := by
        rw [List.drop_drop]
      rw [this, h14]
      exact List.drop_left' (leBytes_length 4 sr)
    rw [hd]
    exact List.take_left' (leBytes_length 4 sq)
  rw [e1, e2, e3, e4, e5, leDecode_leBytes, leDecode_leBytes, leDecode_leBytes]
  rw [show (256 : Nat) ^ 8 = 2 ^ 64 by norm_num, show (256 : Nat) ^ 4 = 2 ^ 32 by norm_num]

theorem parseNextPage_nil : parseNextPage [] = .error .eofErr := by
  simp [parseNextPage]

theorem extractLoop_error {s : List Nat} {e : OggErr} (h : parseNextPage s = .error e) :
    extractLoop s = if e = OggErr.eofErr then .ok [] else .error e := by
  unfold extractLoop
  split
  · rename_i e' he
    rw [he] at h
    cases h
    rfl
  · rename_i p i r hok
    rw [hok] at h
    cases h

theorem extractLoop_ok {s payload : List Nat} {info : OggPageInfo} {rest : List Nat}
    (h : parseNextPage s = .ok (payload, info, rest)) :
    extractLoop s =
      match extractLoop rest with
      | .error e => .error e
      | .ok ps => .ok (payload :: ps) := by
  unfold extractLoop
  split
  · rename_i e' he
    rw [he] at h
    cases h
  · rename_i p i r hok
    rw [hok] at h
    cases h
    conv_rhs => rw [← extractLoop.eq_def]

theorem parsePageInfos_error {s : List Nat} {e : OggErr} (h : parseNextPage s = .error e) :
    parsePageInfos s = if e = OggErr.eofErr then .ok [] else .error e := by
  unfold parsePageInfos
  split
  · rename_i e' he
    rw [he] at h
    cases h
    rfl
  · rename_i p i r hok
    rw [hok] at h
    cases h

theorem parsePageInfos_ok {s payload : List Nat} {info : OggPageInfo} {rest : List Nat}
    (h : parseNextPage s = .ok (payload, info, rest)) :
    parsePageInfos s =
      match parsePageInfos rest with
      | .error e => .error e
      | .ok infos => .ok (info :: infos) := by
  unfold parsePageInfos
  split
  · rename_i e' he
    rw [he] at h
    cases h
  · rename_i p i r hok
    rw [hok] at h
    cases h
    conv_rhs => rw [← parsePageInfos.eq_def]

/-- Abstract description of one encoder-written page: the arguments the
encoder passes to `writeOggPage`. -/
structure PageSpec where
  data : List Nat
  headerType : Nat
  granule : Nat
  serial : Nat
  seq : Nat
  deriving DecidableEq, Repr

def PageSpec.bytes (p : PageSpec) : List Nat :=
  writeOggPage p.data p.headerType p.granule p.serial p.seq

def PageSpec.info (p : PageSpec) : OggPageInfo :=
  { sig := [79, 103, 103, 83], headerType := p.headerType % 256,
    granulePosition := p.granule % 2 ^ 64, serial := p.serial % 2 ^ 32,
    index := p.seq % 2 ^ 32 }

/-- The extraction loop over a stream made of encoder-written pages emits
every page's data, in file order — including empty data. -/
theorem extractLoop_pages (ps : List PageSpec) (h : ∀ q ∈ ps, q.data.length ≤ 255) :
    extractLoop (ps.map PageSpec.bytes).flatten = .ok (ps.map PageSpec.data) := by
  induction ps with
  | nil => simp [extractLoop_error parseNextPage_nil]
  | cons q rest ih =>
    have hq : q.data.length ≤ 255 := h q (by simp)
    have hstep := parseNextPage_writeOggPage q.data q.headerType q.granule q.serial q.seq
      ((rest.map PageSpec.bytes).flatten) hq
    have : (((q :: rest).map PageSpec.bytes).flatten) =
        writeOggPage q.data q.headerType q.granule q.serial q.seq ++
          (rest.map PageSpec.bytes).flatten := by
      simp [PageSpec.bytes]
    rw [this, extractLoop_ok hstep, ih (fun x hx => h x (by simp [hx]))]
    rfl

/-- The header-observing loop over a stream of encoder-written pages
returns each page's header fields, in file order. -/
theorem parsePageInfos_pages (ps : List PageSpec) (h : ∀ q ∈ ps, q.data.length ≤ 255) :
    parsePageInfos (ps.map PageSpec.bytes).flatten = .ok (ps.map PageSpec.info) := by
  induction ps with
  | nil => simp [parsePageInfos_error parseNextPage_nil]
  | cons q rest ih =>
    have hq : q.data.length ≤ 255 := h q (by simp)
    have hstep := parseNextPage_writeOggPage q.data q.headerType q.granule q.serial q.seq
      ((rest.map PageSpec.bytes).flatten) hq
    have : (((q :: rest).map PageSpec.bytes).flatten) =
        writeOggPage q.data q.headerType q.granule q.serial q.seq ++
          (rest.map PageSpec.bytes).flatten := by
      simp [PageSpec.bytes]
    rw [this, parsePageInfos_ok hstep, ih (fun x hx => h x (by simp [hx]))]
    rfl

theorem opusHeadPayload_length : opusHeadPayload.length = 19 := by decide

theorem opusTagsPayload_length : opusTagsPayload.length = 32 := by decide

/-- `oggreader.NewWith` on a stream that begins with the encoder's
identification page accepts it and leaves exactly the remainder. -/
theorem readHeaders_headPage (sr : Nat) (rest : List Nat) :
    readHeaders (writeOggPage opusHeadPayload 2 0 sr 0 ++ rest) = .ok (opusHeadPayload, rest) := by
  rw [readHeaders, parseNextPage_writeOggPage opusHeadPayload 2 0 sr 0 rest (by decide)]
  simp only
  rw [if_neg (by decide), if_neg (by decide), if_neg (by decide), if_neg (by decide)]

/-- The `PageSpec` arguments of the audio pages the encoder loop emits. -/
def audioPageSpecs (serial : Nat) : List (List Nat) → Nat → Nat → Nat → Nat → List PageSpec
  | [], _, _, _, _ => []
  | p :: rest, i, total, granule, pageSeq =>
    if keepFrame p = false then audioPageSpecs serial rest (i + 1) total granule pageSeq
    else
      { data := p, headerType := if i = total - 1 then 4 else 0,
        granule := (granule + 960) % 2 ^ 64, serial := serial, seq := pageSeq } ::
        audioPageSpecs serial rest (i + 1) total ((granule + 960) % 2 ^ 64) (pageSeq + 1)

theorem oggAudioPages_eq_specs (serial : Nat) (l : List (List Nat)) (i total g q : Nat) :
    oggAudioPages serial l i total g q =
      (audioPageSpecs serial l i total g q).map PageSpec.bytes := by
  induction l generalizing i g q with
  | nil => rfl
  | cons p rest ih =>
    cases hk : keepFrame p with
    | false => simp [oggAudioPages, audioPageSpecs, hk, ih]
    | true => simp [oggAudioPages, audioPageSpecs, hk, ih, PageSpec.bytes]

theorem audioPageSpecs_map_data (serial : Nat) (l : List (List Nat)) (i total g q : Nat) :
    (audioPageSpecs serial l i total g q).map PageSpec.data = l.filter keepFrame := by
  induction l generalizing i g q with
  | nil => rfl
  | cons p rest ih =>
    cases hk : keepFrame p with
    | false => simp [audioPageSpecs, hk, List.filter_cons, ih]
    | true => simp [audioPageSpecs, hk, List.filter_cons, ih]

theorem audioPageSpecs_data_le (serial : Nat) (l : List (List Nat)) (i total g q : Nat) :
    ∀ s ∈ audioPageSpecs serial l i total g q, s.data.length ≤ 255 := by
  induction l generalizing i g q with
  | nil => intro s hs; simp [audioPageSpecs] at hs
  | cons p rest ih =>
    intro s hs
    cases hk : keepFrame p with
    | false =>
      rw [audioPageSpecs, if_pos (by rw [hk])] at hs
      exact ih _ _ _ s hs
    | true =>
      rw [audioPageSpecs, if_neg (by rw [hk]; simp)] at hs
      rcases List.mem_cons.mp hs with hh | ht
      · subst hh
        show p.length ≤ 255
        simp [keepFrame] at hk
        omega
      · exact ih _ _ _ s ht

/-- Granule positions of the emitted audio pages: one +960 step (mod
2^64) per kept frame, starting from the running granule `g`. -/
theorem audioPageSpecs_granules (serial : Nat) (l : List (List Nat)) (i total g q : Nat) :
    (audioPageSpecs serial l i total g q).map PageSpec.granule =
      (List.range (l.filter keepFrame).length).map (fun k => (g + 960 * (k + 1)) % 2 ^ 64) := by
  induction l generalizing i g q with
  | nil => rfl
  | cons p rest ih =>
    cases hk : keepFrame p with
    | false => simp [audioPageSpecs, hk, List.filter_cons, ih]
    | true =>
      rw [audioPageSpecs, if_neg (by rw [hk]; simp)]
      have hf : (p :: rest).filter keepFrame = p :: rest.filter keepFrame := by
        simp [List.filter_cons, hk]
      rw [hf]
      simp only [List.map_cons, List.length_cons, List.range_succ_eq_map, List.map_map]
      refine List.cons_eq_cons.mpr ⟨?_, ?_⟩
      · show (g + 960) % 2 ^ 64 = (g + 960 * (0 + 1)) % 2 ^ 64
        norm_num
      · rw [ih]
        apply List.map_congr_left
        intro k hk'
        simp only [Function.comp_apply, Nat.succ_eq_add_one]
        rw [Nat.mod_add_mod]
        have harg : g + 960 + 960 * (k + 1) = g + 960 * (k + 1 + 1) := by ring
        rw [harg]

/-- Header types of the emitted audio pages when the final original frame
is skipped: never 4 (end of stream), because the page written for index
`total - 1` is exactly the page of the last frame. -/
theorem audioPageSpecs_no_eos (serial : Nat) (l : List (List Nat)) (i total g q : Nat)
    (htot : i + l.length = total)
    (hlast : ∀ hne : l ≠ [], keepFrame (l.getLast hne) = false) :
    ∀ s ∈ audioPageSpecs serial l i total g q, s.headerType = 0 := by
  induction l generalizing i g q with
  | nil => intro s hs; simp [audioPageSpecs] at hs
  | cons p rest ih =>
    intro s hs
    cases hk : keepFrame p with
    | false =>
      rw [audioPageSpecs, if_pos (by rw [hk])] at hs
      rcases List.eq_nil_or_concat rest with hnil | -
      · subst hnil; simp [audioPageSpecs] at hs
      · refine ih _ _ _ (by simp at htot ⊢; omega) ?_ s hs
        intro hne
        have := hlast (by simp)
        rwa [List.getLast_cons hne] at this
    | true =>
      rw [audioPageSpecs, if_neg (by rw [hk]; simp)] at hs
      rcases List.eq_nil_or_concat rest with hnil | -
      · subst hnil
        have := hlast (by simp)
        simp [List.getLast] at this
        rw [hk] at this
        cases this
      · rcases List.mem_cons.mp hs with hh | ht
        · subst hh
          have hlen : rest.length ≠ 0 := by
            intro h0
            have hnil := List.length_eq_zero.mp h0
            subst hnil
            have := hlast (by simp)
            simp [List.getLast] at this
            rw [hk] at this
            cases this
          simp only
          rw [if_neg (by simp at htot; omega)]
        · refine ih _ _ _ (by simp at htot ⊢; omega) ?_ s ht
          intro hne
          have := hlast (by simp)
          rwa [List.getLast_cons hne] at this

/-- The encoder's pages, described as `PageSpec`s. -/
def createOggPageSpecs (serial : Nat) (frames : List (List Nat)) : List PageSpec :=
  { data := opusHeadPayload, headerType := 2, granule := 0, serial := serial, seq := 0 } ::
    { data := opusTagsPayload, headerType := 0, granule := 0, serial := serial, seq := 1 } ::
    audioPageSpecs serial frames 0 frames.length 0 2

theorem createOggPages_eq (serial : Nat) (frames : List (List Nat)) :
    createOggPages serial frames = (createOggPageSpecs serial frames).map PageSpec.bytes := by
  simp [createOggPages, createOggPageSpecs, oggAudioPages_eq_specs, PageSpec.bytes]

theorem createOggPageSpecs_data_le (serial : Nat) (frames : List (List Nat)) :
    ∀ q ∈ createOggPageSpecs serial frames, q.data.length ≤ 255 := by
  intro q hq
  rcases List.mem_cons.mp hq with hh | hq
  · subst hh
    show opusHeadPayload.length ≤ 255
    decide
  rcases List.mem_cons.mp hq with hh | hq
  · subst hh
    show opusTagsPayload.length ≤ 255
    decide
  exact audioPageSpecs_data_le serial frames 0 frames.length 0 2 q hq

/-- Decoding any encoder-produced container: the ID page is consumed by
reader construction, and the returned frames are the OpusTags payload
followed by every kept input frame, in order. -/
theorem extractOpus_container (serial : Nat) (frames : List (List Nat)) :
    extractOpusPacketsFromOgg (createOggOpusFile serial frames) =
      .ok (opusTagsPayload :: frames.filter keepFrame) := by
  have hcont : createOggOpusFile serial frames
      = writeOggPage opusHeadPayload 2 0 serial 0 ++
        (({ data := opusTagsPayload, headerType := 0, granule := 0, serial := serial, seq := 1 } ::
            audioPageSpecs serial frames 0 frames.length 0 2).map PageSpec.bytes).flatten := by
    simp [createOggOpusFile, createOggPages, oggAudioPages_eq_specs, PageSpec.bytes]
  rw [extractOpusPacketsFromOgg, hcont, readHeaders_headPage]
  have hexl := extractLoop_pages
    ({ data := opusTagsPayload, headerType := 0, granule := 0, serial := serial, seq := 1 } ::
      audioPageSpecs serial frames 0 frames.length 0 2)
    (by
      intro q hq
      rcases List.mem_cons.mp hq with hh | hq
      · subst hh
        show opusTagsPayload.length ≤ 255
        decide
      · exact audioPageSpecs_data_le serial frames 0 frames.length 0 2 q hq)
  dsimp only
  rw [hexl]
  simp [audioPageSpecs_map_data]

theorem parsePageInfos_container (serial : Nat) (frames : List (List Nat)) :
    parsePageInfos (createOggOpusFile serial frames) =
      .ok ((createOggPageSpecs serial frames).map PageSpec.info) := by
  rw [createOggOpusFile, createOggPages_eq]
  exact parsePageInfos_pages _ (createOggPageSpecs_data_le serial frames)

/-- The granule positions carried by the audio pages of a container (all
pages after the two header pages), read back from the container's bytes;
`none` if the container does not parse. -/
def containerAudioGranules (c : List Nat) : Option (List Nat) :=
  match parsePageInfos c with
  | .error _ => none
  | .ok infos => some ((infos.drop 2).map OggPageInfo.granulePosition)

theorem containerAudioGranules_createOgg (serial : Nat) (frames : List (List Nat)) :
    containerAudioGranules (createOggOpusFile serial frames) =
      some ((List.range (frames.filter keepFrame).length).map
        (fun k => (960 * (k + 1)) % 2 ^ 64)) := by
  rw [containerAudioGranules, parsePageInfos_container]
  simp only [createOggPageSpecs, List.map_cons, List.drop_succ_cons, List.drop_zero]
  have hg := audioPageSpecs_granules serial frames 0 frames.length 0 2
  rw [List.map_map]
  have hfun : (OggPageInfo.granulePosition ∘ PageSpec.info)
      = ((fun x => x % 2 ^ 64) ∘ PageSpec.granule) := rfl
  rw [hfun, ← List.map_map, hg, List.map_map]
  refine congrArg some (List.map_congr_left ?_)
  intro k hk
  simp [Nat.mod_mod]

/-- Closed form of the packetizer loop: the k-th emitted packet carries
sequence number `(seq+k) mod 2^16`, timestamp `(ts+960k) mod 2^32`, and
the marker exactly when its original index is the last one. -/
theorem sendLoop_eq (packets : List (List Nat)) :
    ∀ i total seq ts, seq < 2 ^ 16 → ts < 2 ^ 32 →
      sendLoop packets i total seq ts =
        (List.range packets.length).map (fun k =>
          { version := 2, marker := decide (i + k = total - 1), payloadType := 97,
            sequenceNumber := (seq + k) % 2 ^ 16, timestamp := (ts + 960 * k) % 2 ^ 32,
            ssrc := 0, payload := packets.getD k [] }) := by
  induction packets with
  | nil => intro i total seq ts _ _; rfl
  | cons p rest ih =>
    intro i total seq ts hseq hts
    rw [sendLoop]
    simp only [List.length_cons, List.range_succ_eq_map, List.map_cons, List.map_map]
    refine List.cons_eq_cons.mpr ⟨?_, ?_⟩
    · simp
      omega
    · rw [ih (i + 1) total ((seq + 1) % 2 ^ 16) ((ts + 960) % 2 ^ 32)
        (Nat.mod_lt _ (by norm_num)) (Nat.mod_lt _ (by norm_num))]
      apply List.map_congr_left
      intro k hk
      simp only [Function.comp_apply, Nat.succ_eq_add_one, List.getD_cons_succ]
      have h1 : i + 1 + k = i + (k + 1) := by omega
      have h2 : (seq + 1) % 2 ^ 16 + k = ((seq + 1) % 2 ^ 16 + k) := rfl
      rw [h1, Nat.mod_add_mod, Nat.mod_add_mod]
      have h3 : seq + 1 + k = seq + (k + 1) := by omega
      have h4 : ts + 960 + 960 * k = ts + 960 * (k + 1) := by ring
      rw [h3, h4]

theorem lookupRoom_setRoom (rm : Registry) (id : Nat) (r : Room) :
    lookupRoom (setRoom rm id r) id = some r := by
  induction rm with
  | nil => simp [setRoom, lookupRoom]
  | cons kv rest ih =>
    obtain ⟨k, v⟩ := kv
    by_cases h : k = id <;> simp [setRoom, lookupRoom, h, ih]

/-- Byte 5 of every encoder-written page is the header-type byte. -/
theorem writeOggPage_getD5 (d : List Nat) (ht g sr sq : Nat) :
    (writeOggPage d ht g sr sq).getD 5 0 = ht % 256 := by
  simp [writeOggPage, pageHeadBytes]

theorem createOggPages_length (serial : Nat) (frames : List (List Nat)) :
    (createOggPages serial frames).length = 2 + (frames.filter keepFrame).length := by
  have h1 : (audioPageSpecs serial frames 0 frames.length 0 2).length
      = (frames.filter keepFrame).length := by
    rw [← audioPageSpecs_map_data serial frames 0 frames.length 0 2, List.length_map]
  simp [createOggPages, oggAudioPages_eq_specs, h1]
  omega

/-- Any room ever holds at most two peers: the two slots. -/
theorem Room.peerCount_le_two (r : Room) : r.peerCount ≤ 2 := by
  rcases hA : r.peerA <;> rcases hB : r.peerB <;> simp [Room.peerCount, hA, hB]

/-! ## Claim theorems -/

/-- C5: calling `addPeer` on a room whose two slots are both occupied
leaves both slots unchanged and returns no partner (no error is raised —
the function is total), and every Registry room operation preserves the
at-most-two-peers invariant. -/
theorem addPeer_full_noop (r : Room) (p : Nat)
    (hA : r.peerA.isSome = true) (hB : r.peerB.isSome = true) :
    r.addPeer p = (r, none)
    ∧ (∀ (s : Room) (q : Nat), (s.addPeer q).1.peerCount ≤ 2
        ∧ (s.removePeer q).peerCount ≤ 2 ∧ s.peerCount ≤ 2) := by
  constructor
  · obtain ⟨a, ha⟩ := Option.isSome_iff_exists.mp hA
    obtain ⟨b, hb⟩ := Option.isSome_iff_exists.mp hB
    simp [Room.addPeer, ha, hb]
  · intro s q
    exact ⟨Room.peerCount_le_two _, Room.peerCount_le_two _, Room.peerCount_le_two _⟩

theorem addPeer_full_noop_witness :
    Room.addPeer { peerA := some 1, peerB := some 2 } 3
        = ({ peerA := some 1, peerB := some 2 }, none)
    ∧ (∀ (s : Room) (q : Nat), (s.addPeer q).1.peerCount ≤ 2
        ∧ (s.removePeer q).peerCount ≤ 2 ∧ s.peerCount ≤ 2) :=
  addPeer_full_noop { peerA := some 1, peerB := some 2 } 3 (by decide) (by decide)

/-- C6: starting from an empty room, the first `addPeer` occupies slot A
and returns no partner, the second occupies slot B and returns exactly
slot A's peer, and a third call (both slots occupied) changes nothing and
returns no partner — the pairing signal fires exactly once. -/
theorem addPeer_pairing (p1 p2 p3 : Nat) (hne : p1 ≠ p2) :
    emptyRoom.addPeer p1 = ({ peerA := some p1, peerB := none }, none)
    ∧ Room.addPeer { peerA := some p1, peerB := none } p2
        = ({ peerA := some p1, peerB := some p2 }, some p1)
    ∧ Room.addPeer { peerA := some p1, peerB := some p2 } p3
        = ({ peerA := some p1, peerB := some p2 }, none) :=
  ⟨rfl, rfl, rfl⟩

theorem addPeer_pairing_witness :
    emptyRoom.addPeer 10 = ({ peerA := some 10, peerB := none }, none)
    ∧ Room.addPeer { peerA := some 10, peerB := none } 11
        = ({ peerA := some 10, peerB := some 11 }, some 10)
    ∧ Room.addPeer { peerA := some 10, peerB := some 11 } 12
        = ({ peerA := some 10, peerB := some 11 }, none) :=
  addPeer_pairing 10 11 12 (by decide)

/-- C7: `removePeer` clears exactly the slot holding the identical peer
(slot A first, matching the code's else-if), leaves the other slot
unchanged, and is a no-op when neither slot holds that exact peer. -/
theorem removePeer_exact (r : Room) (p : Nat) :
    (r.peerA = some p → r.removePeer p = { r with peerA := none })
    ∧ (r.peerA ≠ some p → r.peerB = some p → r.removePeer p = { r with peerB := none })
    ∧ (r.peerA ≠ some p → r.peerB ≠ some p → r.removePeer p = r) := by
  refine ⟨fun h => ?_, fun h1 h2 => ?_, fun h1 h2 => ?_⟩ <;>
    simp [Room.removePeer, *]

theorem removePeer_exact_witness :
    Room.removePeer { peerA := some 5, peerB := some 6 } 5
        = { peerA := none, peerB := some 6 }
    ∧ Room.removePeer { peerA := some 5, peerB := some 6 } 6
        = { peerA := some 5, peerB := none }
    ∧ Room.removePeer { peerA := some 5, peerB := some 6 } 7
        = { peerA := some 5, peerB := some 6 } :=
  ⟨(removePeer_exact { peerA := some 5, peerB := some 6 } 5).1 rfl,
   (removePeer_exact { peerA := some 5, peerB := some 6 } 6).2.1 (by decide) rfl,
   (removePeer_exact { peerA := some 5, peerB := some 6 } 7).2.2 (by decide) (by decide)⟩

/-- C3: over any sequence of N successfully read packets on an audio-kind
track, the relay loop writes exactly N packets, with byte-identical
payloads in the same relative order, with header extensions stripped; on
a non-audio track it writes nothing. -/
theorem connectPeers_relay (pkts : List RTPPacket) :
    (relayLoop true (pkts.map ReadEvent.packet)).length = pkts.length
    ∧ (relayLoop true (pkts.map ReadEvent.packet)).map RTPPacket.payload
        = pkts.map RTPPacket.payload
    ∧ (relayLoop true (pkts.map ReadEvent.packet)).map
        (fun p => p.header.extensionFlag) = List.replicate pkts.length false
    ∧ (relayLoop true (pkts.map ReadEvent.packet)).map
        (fun p => p.header.extensions) = List.replicate pkts.length ([] : List (Nat × List Nat))
    ∧ relayLoop false (pkts.map ReadEvent.packet) = [] := by
  induction pkts with
  | nil => simp [relayLoop]
  | cons p rest ih =>
    obtain ⟨h1, h2, h3, h4, h5⟩ := ih
    simp [relayLoop, stripExtensions, h1, h2, h3, h4, h5, List.replicate_succ]

/-- C1 counterexample: a request to room 1 of an empty registry whose
SetRemoteDescription fails (everything before it succeeding) is answered
with status 500, yet the registry now holds room 1 with the failed
session's peer (id 7) occupying slot A — a Registry mutation the claim
rules out. -/
theorem whipHandler_negotiation_mutates :
    whipHandler
        { registerCodecOk := true, newPeerConnectionOk := true, newTrackOk := true,
          addTrackOk := true, setRemoteDescriptionOk := false, createAnswerOk := true,
          setLocalDescriptionOk := true }
        { isOptions := false, room := some 1 } [] 7
      = ([(1, { peerA := some 7, peerB := none })], 500)
    ∧ lookupRoom [(1, { peerA := some 7, peerB := none })] 1
      = some { peerA := some 7, peerB := none } := by
  constructor <;> rfl

/-- C1 (amended): when a request with a non-empty room reaches the
negotiation phase and SetRemoteDescription, CreateAnswer, or
SetLocalDescription fails, the handler responds with server error 500,
but the Registry has already been mutated: the registry equals the state
after `getOrCreateRoom` + `addPeer`, and — whenever slot B of the
addressed room was free — the failed session's peer occupies one of the
room's slots (the handler performs no rollback `removePeer`). -/
theorem whipHandler_negotiation_failure (env : WhipEnv) (req : WhipRequest) (rm : Registry)
    (peer id : Nat) (hopt : req.isOptions = false) (hroom : req.room = some id)
    (h1 : env.registerCodecOk = true) (h2 : env.newPeerConnectionOk = true)
    (h3 : env.newTrackOk = true) (h4 : env.addTrackOk = true)
    (hneg : env.setRemoteDescriptionOk = false ∨ env.createAnswerOk = false ∨
      env.setLocalDescriptionOk = false) :
    whipHandler env req rm peer = (registryAfterRegistration rm id peer, 500)
    ∧ ((getOrCreateRoom rm id).2.peerB = none →
        ∃ r, lookupRoom (registryAfterRegistration rm id peer) id = some r
          ∧ (r.peerA = some peer ∨ r.peerB = some peer)) := by
  constructor
  · rcases hneg with h | h | h <;>
      simp [whipHandler, hopt, hroom, h1, h2, h3, h4, h]
  · intro hB
    have hlook : lookupRoom (registryAfterRegistration rm id peer) id
        = some ((getOrCreateRoom rm id).2.addPeer peer).1 := by
      simp only [registryAfterRegistration]
      exact lookupRoom_setRoom _ _ _
    refine ⟨((getOrCreateRoom rm id).2.addPeer peer).1, hlook, ?_⟩
    rcases hA : (getOrCreateRoom rm id).2.peerA with _ | a
    · left
      simp [Room.addPeer, hA]
    · right
      simp [Room.addPeer, hA, hB]

theorem whipHandler_negotiation_failure_witness :
    whipHandler
        { registerCodecOk := true, newPeerConnectionOk := true, newTrackOk := true,
          addTrackOk := true, setRemoteDescriptionOk := false, createAnswerOk := true,
          setLocalDescriptionOk := true }
        { isOptions := false, room := some 1 } [] 7
      = (registryAfterRegistration [] 1 7, 500)
    ∧ ((getOrCreateRoom [] 1).2.peerB = none →
        ∃ r, lookupRoom (registryAfterRegistration [] 1 7) 1 = some r
          ∧ (r.peerA = some 7 ∨ r.peerB = some 7)) :=
  whipHandler_negotiation_failure
    { registerCodecOk := true, newPeerConnectionOk := true, newTrackOk := true,
      addTrackOk := true, setRemoteDescriptionOk := false, createAnswerOk := true,
      setLocalDescriptionOk := true }
    { isOptions := false, room := some 1 } [] 7 1 rfl rfl rfl rfl rfl rfl (Or.inl rfl)

theorem map_getD_range {α : Type} (l : List α) (d : α) :
    (List.range l.length).map (fun k => l.getD k d) = l := by
  induction l with
  | nil => rfl
  | cons x xs ih =>
    simp only [List.length_cons, List.range_succ_eq_map, List.map_cons, List.getD_cons_zero,
      List.map_map]
    refine List.cons_eq_cons.mpr ⟨rfl, ?_⟩
    rw [show ((fun k => (x :: xs).getD k d) ∘ Nat.succ) = (fun k => xs.getD k d) from ?_, ih]
    funext k
    simp [List.getD_cons_succ]

/-- C9 counterexample: a batch of 65537 frames.  The sequence number is a
Go `uint16`: packet 65535 carries sequence number 65535 and packet 65536
carries sequence number 0, so the emitted sequence numbers are not
strictly increasing. -/
theorem sendAudioToTrack_seq_wraps :
    ((sendAudioToTrack (List.replicate 65537 [0])).map SentPacket.sequenceNumber)[65535]?
        = some 65535
    ∧ ((sendAudioToTrack (List.replicate 65537 [0])).map SentPacket.sequenceNumber)[65536]?
        = some 0
    ∧ ¬ 65535 < 0 := by
  rw [sendAudioToTrack,
    sendLoop_eq (List.replicate 65537 [0]) 0 (List.replicate 65537 [0]).length 0 0
      (by norm_num) (by norm_num)]
  simp only [List.map_map, List.getElem?_map, List.getElem?_range, List.length_replicate]
  norm_num

/-- C9 (amended): the packetizer emits one packet per frame in order with
byte-identical payloads; sequence numbers are `k mod 2^16` (strictly
increasing for batches of at most 2^16 frames — the counter is a Go
`uint16`), timestamps advance by exactly 960 samples per frame modulo
2^32, and the end-of-stream marker is set on the last frame of the batch
and on no other frame. -/
theorem sendAudioToTrack_fields (packets : List (List Nat)) :
    (sendAudioToTrack packets).map SentPacket.payload = packets
    ∧ (sendAudioToTrack packets).map SentPacket.sequenceNumber
        = (List.range packets.length).map (fun k => k % 2 ^ 16)
    ∧ (sendAudioToTrack packets).map SentPacket.timestamp
        = (List.range packets.length).map (fun k => (960 * k) % 2 ^ 32)
    ∧ (sendAudioToTrack packets).map SentPacket.marker
        = (List.range packets.length).map (fun k => decide (k = packets.length - 1))
    ∧ (packets.length ≤ 2 ^ 16 →
        List.Pairwise (· < ·) ((sendAudioToTrack packets).map SentPacket.sequenceNumber)) := by
  have hsend := sendLoop_eq packets 0 packets.length 0 0 (by norm_num) (by norm_num)
  rw [sendAudioToTrack, hsend]
  simp only [List.map_map]
  have hseq : ((fun p : SentPacket => p.sequenceNumber) ∘ fun k =>
      ({ version := 2, marker := decide (0 + k = packets.length - 1), payloadType := 97,
         sequenceNumber := (0 + k) % 2 ^ 16, timestamp := (0 + 960 * k) % 2 ^ 32,
         ssrc := 0, payload := packets.getD k [] } : SentPacket))
      = fun k => k % 2 ^ 16 := by
    funext k
    simp
  refine ⟨?_, ?_, ?_, ?_, ?_⟩
  · rw [show ((fun p : SentPacket => p.payload) ∘ fun k =>
        ({ version := 2, marker := decide (0 + k = packets.length - 1), payloadType := 97,
           sequenceNumber := (0 + k) % 2 ^ 16, timestamp := (0 + 960 * k) % 2 ^ 32,
           ssrc := 0, payload := packets.getD k [] } : SentPacket))
        = fun k => packets.getD k [] from rfl]
    exact map_getD_range packets []
  · rw [hseq]
  · apply List.map_congr_left
    intro k hk
    simp
  · apply List.map_congr_left
    intro k hk
    simp
  · intro hlen
    rw [hseq, List.pairwise_map]
    refine (List.pairwise_lt_range _).imp_of_mem ?_
    intro a b ha hb hab
    rw [List.mem_range] at ha hb
    have ha2 : a % 2 ^ 16 = a := Nat.mod_eq_of_lt (by omega)
    have hb2 : b % 2 ^ 16 = b := Nat.mod_eq_of_lt (by omega)
    omega

theorem sendAudioToTrack_fields_witness :
    (sendAudioToTrack [[1], [2]]).map SentPacket.payload = [[1], [2]]
    ∧ (sendAudioToTrack [[1], [2]]).map SentPacket.sequenceNumber
        = (List.range ([[1], [2]] : List (List Nat)).length).map (fun k => k % 2 ^ 16)
    ∧ (sendAudioToTrack [[1], [2]]).map SentPacket.timestamp
        = (List.range ([[1], [2]] : List (List Nat)).length).map (fun k => (960 * k) % 2 ^ 32)
    ∧ (sendAudioToTrack [[1], [2]]).map SentPacket.marker
        = (List.range ([[1], [2]] : List (List Nat)).length).map
            (fun k => decide (k = ([[1], [2]] : List (List Nat)).length - 1))
    ∧ (([[1], [2]] : List (List Nat)).length ≤ 2 ^ 16 →
        List.Pairwise (· < ·) ((sendAudioToTrack [[1], [2]]).map SentPacket.sequenceNumber)) :=
  sendAudioToTrack_fields [[1], [2]]

/-- C2 counterexample: decoding a container holding only the two header
pages (the encoder's output for an empty batch) yields one frame — the
comment page's payload — not zero: only the identification page is
skipped by the reader, and the OpusTags page's payload is emitted. -/
theorem extractOpus_headerOnly :
    extractOpusPacketsFromOgg (createOggOpusFile 0 []) = .ok [opusTagsPayload]
    ∧ (Except.ok [opusTagsPayload] : Except OggErr (List (List Nat)))
        ≠ .ok ([] : List (List Nat)) := by
  refine ⟨?_, by simp⟩
  simpa using extractOpus_container 0 []

/-- C2 (amended): the container-to-frame decoder consumes and validates
only the first page (the identification header) while constructing the
reader; every subsequent page's payload — including the comment-header
page's payload and empty payloads — is emitted as one frame in file
order.  (Zero-length payloads are not rejected by this variant; the
part_003 variant additionally skips empty pages and pages starting with
the OpusHead/OpusTags magics.) -/
theorem extractOpus_emits_every_later_page (sr : Nat) (specs : List PageSpec)
    (h : ∀ q ∈ specs, q.data.length ≤ 255) :
    extractOpusPacketsFromOgg
        (writeOggPage opusHeadPayload 2 0 sr 0 ++ (specs.map PageSpec.bytes).flatten)
      = .ok (specs.map PageSpec.data) := by
  rw [extractOpusPacketsFromOgg, readHeaders_headPage]
  dsimp only
  exact extractLoop_pages specs h

theorem extractOpus_emits_every_later_page_witness :
    extractOpusPacketsFromOgg
        (writeOggPage opusHeadPayload 2 0 5 0 ++
          (([{ data := [], headerType := 0, granule := 0, serial := 5, seq := 1 },
             { data := [8, 9], headerType := 0, granule := 960, serial := 5, seq := 2 }] :
            List PageSpec).map PageSpec.bytes).flatten)
      = .ok (([{ data := [], headerType := 0, granule := 0, serial := 5, seq := 1 },
               { data := [8, 9], headerType := 0, granule := 960, serial := 5, seq := 2 }] :
              List PageSpec).map PageSpec.data) :=
  extractOpus_emits_every_later_page 5 _ (by decide)

/-- C4 counterexample: encoding the one-frame batch `[[1]]` and decoding
the result yields two frames (the comment-header payload, then the
original frame), not one. -/
theorem container_roundtrip_counterexample :
    extractOpusPacketsFromOgg (createOggOpusFile 0 [[1]]) = .ok [opusTagsPayload, [1]]
    ∧ ([opusTagsPayload, [1]] : List (List Nat)).length ≠ 1 := by
  refine ⟨?_, by decide⟩
  have h := extractOpus_container 0 [[1]]
  have hfil : ([[1]] : List (List Nat)).filter keepFrame = [[1]] := by decide
  rw [hfil] at h
  exact h

/-- C4 (amended): for a batch of M frames each of length 1..255, decoding
the encoded container yields M+1 frames — the comment-header payload
followed by the M input frames byte-identical and in order — and the
granule positions of the audio pages advance by exactly 960 samples per
frame (modulo 2^64, the granule field being a Go `uint64`), hence are
strictly increasing whenever 960·M does not overflow. -/
theorem container_roundtrip (serial : Nat) (frames : List (List Nat))
    (h : ∀ f ∈ frames, 1 ≤ f.length ∧ f.length ≤ 255) :
    extractOpusPacketsFromOgg (createOggOpusFile serial frames)
        = .ok (opusTagsPayload :: frames)
    ∧ containerAudioGranules (createOggOpusFile serial frames)
        = some ((List.range frames.length).map (fun k => (960 * (k + 1)) % 2 ^ 64))
    ∧ (960 * frames.length < 2 ^ 64 →
        List.Pairwise (· < ·)
          ((List.range frames.length).map (fun k => (960 * (k + 1)) % 2 ^ 64))) := by
  have hfil : frames.filter keepFrame = frames := by
    rw [List.filter_eq_self]
    intro f hf
    have hlen := h f hf
    simp only [keepFrame, Bool.not_eq_true', Bool.or_eq_false_iff, decide_eq_false_iff_not]
    omega
  refine ⟨?_, ?_, ?_⟩
  · rw [extractOpus_container, hfil]
  · rw [containerAudioGranules_createOgg, hfil]
  · intro hM
    rw [List.pairwise_map]
    refine (List.pairwise_lt_range _).imp_of_mem ?_
    intro a b ha hb hab
    rw [List.mem_range] at ha hb
    have ha2 : 960 * (a + 1) < 2 ^ 64 := by omega
    have hb2 : 960 * (b + 1) < 2 ^ 64 := by omega
    rw [Nat.mod_eq_of_lt ha2, Nat.mod_eq_of_lt hb2]
    omega

theorem container_roundtrip_witness :
    extractOpusPacketsFromOgg (createOggOpusFile 3 [[7], [8]])
        = .ok (opusTagsPayload :: [[7], [8]])
    ∧ containerAudioGranules (createOggOpusFile 3 [[7], [8]])
        = some ((List.range ([[7], [8]] : List (List Nat)).length).map
            (fun k => (960 * (k + 1)) % 2 ^ 64))
    ∧ (960 * ([[7], [8]] : List (List Nat)).length < 2 ^ 64 →
        List.Pairwise (· < ·)
          ((List.range ([[7], [8]] : List (List Nat)).length).map
            (fun k => (960 * (k + 1)) % 2 ^ 64))) :=
  container_roundtrip 3 [[7], [8]] (by decide)

/-- For any arguments, the four bytes stored at offsets 22-25 of an
encoder-written page are the little-endian checksum computed over the
whole page with the checksum field treated as zero. -/
theorem writeOggPage_stored_checksum (d : List Nat) (ht g sr sq : Nat) :
    ((writeOggPage d ht g sr sq).drop 22).take 4
      = leBytes 4 (crc32Ogg ((writeOggPage d ht g sr sq).take 22 ++ [0, 0, 0, 0] ++
          (writeOggPage d ht g sr sq).drop 26)) := by
  have hA := pageHeadBytes_length ht g sr sq
  set c := crc32Ogg (pageZero d ht g sr sq) with hc
  have hassoc : writeOggPage d ht g sr sq
      = pageHeadBytes ht g sr sq ++ (leBytes 4 c ++ ([1, d.length % 256] ++ d)) := by
    simp [writeOggPage, hc, List.append_assoc]
  have htk22 : (writeOggPage d ht g sr sq).take 22 = pageHeadBytes ht g sr sq := by
    rw [hassoc]
    exact List.take_left' hA
  have hdp22 : (writeOggPage d ht g sr sq).drop 22
      = leBytes 4 c ++ ([1, d.length % 256] ++ d) := by
    rw [hassoc]
    exact List.drop_left' hA
  have hdp26 : (writeOggPage d ht g sr sq).drop 26 = [1, d.length % 256] ++ d := by
    have hassoc2 : writeOggPage d ht g sr sq
        = (pageHeadBytes ht g sr sq ++ leBytes 4 c) ++ ([1, d.length % 256] ++ d) := by
      simp [writeOggPage, hc, List.append_assoc]
    rw [hassoc2]
    exact List.drop_left' (by simp [hA, leBytes_length])
  rw [htk22, hdp22, hdp26, List.take_left' (leBytes_length 4 c)]
  congr 1

/-- C8: every page the container encoder emits stores, as its checksum
field (bytes 22-25), the 32-bit checksum computed over the entire page's
bytes with the checksum field itself treated as zero, and the lookup
table in the source is exactly the table generated from the standard OGG
page-integrity polynomial 0x04c11db7. -/
theorem createOgg_page_checksum (serial : Nat) (frames : List (List Nat)) (page : List Nat)
    (hmem : page ∈ createOggPages serial frames) :
    (page.drop 22).take 4
        = leBytes 4 (crc32Ogg (page.take 22 ++ [0, 0, 0, 0] ++ page.drop 26))
    ∧ crc32Table = crcTableOfPoly := by
  refine ⟨?_, crcTableOfPoly_eq.symm⟩
  rw [createOggPages_eq] at hmem
  obtain ⟨spec, -, rfl⟩ := List.mem_map.mp hmem
  exact writeOggPage_stored_checksum spec.data spec.headerType spec.granule spec.serial spec.seq

theorem createOgg_page_checksum_witness :
    ((writeOggPage opusHeadPayload 2 0 0 0).drop 22).take 4
        = leBytes 4 (crc32Ogg ((writeOggPage opusHeadPayload 2 0 0 0).take 22 ++ [0, 0, 0, 0] ++
            (writeOggPage opusHeadPayload 2 0 0 0).drop 26))
    ∧ crc32Table = crcTableOfPoly :=
  createOgg_page_checksum 0 [] (writeOggPage opusHeadPayload 2 0 0 0)
    (List.mem_cons_self _ _)

/-- C10: the container encoder silently skips every input frame that is
empty or longer than 255 bytes — the audio pages are exactly the frames
with length 1..255, in order, after the two header pages — and when the
final frame of the batch is skipped, no page of the produced container
carries the end-of-stream flag (bit 0x04 of the header-type byte). -/
theorem createOggOpusFile_skips (serial : Nat) (frames : List (List Nat)) :
    (createOggPages serial frames).length
        = 2 + (frames.filter (fun f => decide (1 ≤ f.length) && decide (f.length ≤ 255))).length
    ∧ (∀ hne : frames ≠ [], keepFrame (frames.getLast hne) = false →
        ∀ page ∈ createOggPages serial frames, page.getD 5 0 &&& 4 = 0) := by
  constructor
  · rw [createOggPages_length]
    have hfe : frames.filter keepFrame
        = frames.filter (fun f => decide (1 ≤ f.length) && decide (f.length ≤ 255)) := by
      apply List.filter_congr
      intro f _
      rw [Bool.eq_iff_iff]
      simp only [keepFrame, Bool.not_eq_true', Bool.or_eq_false_iff, decide_eq_false_iff_not,
        Bool.and_eq_true, decide_eq_true_eq]
      omega
    rw [hfe]
  · intro hne hlast page hpage
    rw [createOggPages_eq] at hpage
    obtain ⟨spec, hspec, rfl⟩ := List.mem_map.mp hpage
    rcases List.mem_cons.mp hspec with hh | hspec2
    · subst hh
      show (writeOggPage opusHeadPayload 2 0 serial 0).getD 5 0 &&& 4 = 0
      rw [writeOggPage_getD5]
      decide
    rcases List.mem_cons.mp hspec2 with hh | hspec3
    · subst hh
      show (writeOggPage opusTagsPayload 0 0 serial 1).getD 5 0 &&& 4 = 0
      rw [writeOggPage_getD5]
      decide
    · have h0 : spec.headerType = 0 :=
        audioPageSpecs_no_eos serial frames 0 frames.length 0 2 (by omega)
          (fun _ => hlast) spec hspec3
      show (writeOggPage spec.data spec.headerType spec.granule spec.serial spec.seq).getD 5 0
          &&& 4 = 0
      rw [writeOggPage_getD5, h0]
      decide

theorem createOggOpusFile_skips_witness :
    (createOggPages 0 [[]]).length
        = 2 + (([[]] : List (List Nat)).filter
            (fun f => decide (1 ≤ f.length) && decide (f.length ≤ 255))).length
    ∧ (writeOggPage opusHeadPayload 2 0 0 0).getD 5 0 &&& 4 = 0 :=
  ⟨(createOggOpusFile_skips 0 [[]]).1,
   (createOggOpusFile_skips 0 [[]]).2 (by simp) (by decide)
     (writeOggPage opusHeadPayload 2 0 0 0) (List.mem_cons_self _ _)⟩

end SingleWhip
